import Mathlib

/-!
# go-bank: the account ledger over its relational store

A shallow embedding of `src/go-bank` (`types.go`, `storage.go`, `api.go`).

* The table `account` is the list of its rows in storage order, together with
  the `serial` counter of the `id` column.
* Every call into `database/sql` (`Exec`, `QueryRow`, `Query`) either is carried
  out or is reported as failed by the database.  Which of the two happens is
  not decided by the Go code, so the database value carries the outcomes of the
  calls still to come (`faults`); a failed call applies nothing.
* A balance or an amount is a `float64`, and `+` and `-` on it are the
  operations of IEEE 754 binary64 that Go prescribes: the exact result, rounded
  to the nearest value with ties to the even one.  Every finite `float64` is a
  whole number of steps of `2^-1074`, and `F64` counts a finite value in these
  steps.  The two zeros, which compare equal, are one value; so are all NaNs.
* A row keeps the Go values a statement hands it, and a scan returns the values
  the row keeps.  What the driver and the column types (`varchar(50)`,
  `char(36)`, `decimal(19,4)`, `timestamp`) make of a value on its way into the
  table and back is not in the Go code and is not part of this development; a
  value that the database refuses is a failed call.
* A `*Account` handed to the store is only read by it, so accounts are passed
  by value; `GetUpdatedAccount` returns the record it has written into `old`.
* The `id` of a request path is compared by the database with the integer key
  of the row; the embedding takes the integer it denotes.
-/

namespace GoBank

/-! ## The type `float64` -/

/-- A `float64`: a finite value of `k` steps of `2^-1074`, an infinity, or NaN. -/
inductive F64 where
  /-- The finite value `k * 2^-1074`. -/
  | fin (k : Int)
  /-- The value `-Inf` when `negative`, else `+Inf`. -/
  | inf (negative : Bool)
  /-- The value NaN. -/
  | nan
deriving DecidableEq

/-- The number of steps of `2^-1074` in the value 1. -/
def F64.scale : Nat := 2 ^ 1074

/-- The first magnitude, in steps of `2^-1074`, that is too large for a finite
`float64`: `2^1024`. -/
def F64.limit : Nat := 2 ^ 2098

/-- The whole number nearest to `n / d`; of two equally near ones, the even
one. -/
def roundHalfEven (n d : Nat) : Nat :=
  if 2 * (n % d) < d then n / d
  else if d < 2 * (n % d) then n / d + 1
  else if (n / d) % 2 = 0 then n / d else n / d + 1

/-- The loop of `bitLength`: halve until nothing is left. -/
def bitLengthAux : Nat → Nat → Nat → Nat
  | 0, _, acc => acc
  | fuel + 1, n, acc => if n = 0 then acc else bitLengthAux fuel (n / 2) (acc + 1)

/-- The number of binary digits of `n`. -/
def bitLength (n : Nat) : Nat := bitLengthAux n n 0

/-- The `float64` nearest to the magnitude `n / d` steps, with the given sign:
the magnitude keeps its 53 leading binary digits, the rest being rounded to the
nearest, ties to even; a result of `2^1024` or more is an infinity. -/
def F64.nearest (negative : Bool) (n d : Nat) : F64 :=
  let shift := bitLength (n / d) - 53
  let m := roundHalfEven n (d * 2 ^ shift) * 2 ^ shift
  if F64.limit ≤ m then .inf negative
  else .fin (if negative then - (m : Int) else m)

/-- The `float64` that a decimal literal `num / den` denotes, as the Go
compiler and `json.Decode` read it: the nearest one (both refuse a literal
whose nearest value would be an infinity). -/
def F64.ofRat (num : Int) (den : Nat) : F64 :=
  F64.nearest (decide (num < 0)) (num.natAbs * F64.scale) den

/-- The `float64` nearest to `k` steps. -/
def F64.round (k : Int) : F64 := F64.nearest (decide (k < 0)) k.natAbs 1

/-- Go `x + y` on `float64`. -/
def F64.add : F64 → F64 → F64
  | .nan, _ => .nan
  | _, .nan => .nan
  | .inf a, .inf b => if a = b then .inf a else .nan
  | .inf a, .fin _ => .inf a
  | .fin _, .inf b => .inf b
  | .fin a, .fin b => F64.round (a + b)

/-- Go `-x` on `float64`. -/
def F64.neg : F64 → F64
  | .nan => .nan
  | .inf a => .inf (!a)
  | .fin a => .fin (-a)

/-- Go `x - y` on `float64`: the sum of `x` and `-y`. -/
def F64.sub (x y : F64) : F64 := F64.add x (F64.neg y)

/-- Go `x != y` on `float64`: NaN differs from every value, itself included. -/
def F64.ne : F64 → F64 → Bool
  | .nan, _ => true
  | _, .nan => true
  | x, y => decide (x ≠ y)

instance : Add F64 := ⟨F64.add⟩

instance : Sub F64 := ⟨F64.sub⟩

instance (n : Nat) : OfNat F64 n := ⟨F64.ofRat n 1⟩

/-- The finite values of `float64`, in steps of `2^-1074`: at most 53 binary
digits followed by zeros, below `2^1024`. -/
def F64.representable (k : Int) : Prop :=
  k.natAbs < F64.limit ∧ ∃ m e : Nat, m < 2 ^ 53 ∧ k.natAbs = m * 2 ^ e

/-- The steps of a finite value. -/
def F64.steps : F64 → Option Int
  | .fin k => some k
  | _ => none

/-- The sum of two finite values as a number, in steps, free of rounding. -/
def F64.exactAdd : F64 → F64 → Option Int
  | .fin a, .fin b => some (a + b)
  | _, _ => none

/-- The difference of two finite values as a number, in steps, free of
rounding. -/
def F64.exactSub : F64 → F64 → Option Int
  | .fin a, .fin b => some (a - b)
  | _, _ => none

/-! ## types.go -/

/-- The `Account` record. -/
structure Account where
  ID : Int
  FirstName : String
  LastName : String
  UUID : String
  Balance : F64
  CreatedAt : Nat
deriving DecidableEq

/-- The `CreateAccountRequest` record. -/
structure CreateAccountRequest where
  FirstName : String
  LastName : String
deriving DecidableEq

/-- The `TransferBalanceRequest` record. -/
structure TransferBalanceRequest where
  Recepient : Int
  Amount : F64
deriving DecidableEq

/-- The `BalanceChangeRequest` record. -/
structure BalanceChangeRequest where
  Amount : F64
deriving DecidableEq

/-- Go `NewAccount`: the two names of the request, a fresh uuid and the current
time (both drawn from the environment); `ID` and `Balance` keep their zero
value. -/
def NewAccount (req : CreateAccountRequest) (uuid : String) (now : Nat) : Account :=
  { ID := 0, FirstName := req.FirstName, LastName := req.LastName,
    UUID := uuid, Balance := 0, CreatedAt := now }

/-- Go `GetUpdatedAccount`: three guarded assignments into `old`, which is then
returned. -/
def GetUpdatedAccount (old toUpdate : Account) : Account :=
  let old1 : Account :=
    if toUpdate.FirstName ≠ "" ∧ old.FirstName ≠ toUpdate.FirstName then
      { old with FirstName := toUpdate.FirstName }
    else old
  let old2 : Account :=
    if toUpdate.LastName ≠ "" ∧ old1.LastName ≠ toUpdate.LastName then
      { old1 with LastName := toUpdate.LastName }
    else old1
  let old3 : Account :=
    if F64.ne old2.Balance toUpdate.Balance then
      { old2 with Balance := toUpdate.Balance }
    else old2
  old3

/-! ## The database behind `database/sql` -/

/-- Errors that travel through the store and the handlers. -/
inductive Err where
  /-- The value `sql.ErrNoRows`. -/
  | noRows
  /-- Any other error reported by a database call. -/
  | storage
  /-- The error built by `fmt.Errorf("account with id = %s does not exist", id)`. -/
  | notExist (id : Int)
  /-- A request body that `json.Decode` rejects. -/
  | decode
deriving DecidableEq

deriving instance DecidableEq for Except

/-- The statements that `storage.go` passes to `Exec`, with their arguments. -/
inductive Stmt where
  /-- The `insert into account (first_name, last_name, uuid, balance, created_at)`. -/
  | insertAccount (firstName lastName uuid : String) (balance : F64) (createdAt : Nat)
  /-- The `UPDATE account SET first_name, last_name, balance WHERE id`. -/
  | updateAccount (firstName lastName : String) (balance : F64) (id : Int)
  /-- The `DELETE FROM account WHERE id`. -/
  | deleteAccount (id : Int)
  /-- The `UPDATE account SET balance WHERE id`. -/
  | updateBalance (balance : F64) (id : Int)
deriving DecidableEq

/-- The database: the rows of `account`, the counter of its `serial` column and
the outcomes of the calls to come (`true`: the call fails; past the end of the
list every call is carried out). -/
structure DB where
  rows : List Account
  nextID : Int
  faults : List Bool
deriving DecidableEq

/-- The `select * from account where id = $1`: the first row with that key. -/
def selectByID (rows : List Account) (id : Int) : Option Account :=
  rows.find? (fun r => r.ID == id)

/-- The effect of a statement on the table and the number of rows affected. -/
def DB.run (db : DB) : Stmt → Nat × DB
  | .insertAccount fn ln uuid bal created =>
      (1, { db with
            rows := db.rows ++ [{ ID := db.nextID, FirstName := fn, LastName := ln,
                                  UUID := uuid, Balance := bal, CreatedAt := created }],
            nextID := db.nextID + 1 })
  | .updateAccount fn ln bal id =>
      ((db.rows.filter (fun r => r.ID == id)).length,
       { db with rows := db.rows.map (fun r =>
           if r.ID == id then { r with FirstName := fn, LastName := ln, Balance := bal }
           else r) })
  | .deleteAccount id =>
      ((db.rows.filter (fun r => r.ID == id)).length,
       { db with rows := db.rows.filter (fun r => !(r.ID == id)) })
  | .updateBalance bal id =>
      ((db.rows.filter (fun r => r.ID == id)).length,
       { db with rows := db.rows.map (fun r =>
           if r.ID == id then { r with Balance := bal } else r) })

/-- The database after the outcome of one call has been consumed. -/
def DB.next (db : DB) : DB := { db with faults := db.faults.tail }

/-- Whether the call now made is reported as failed. -/
def DB.failing (db : DB) : Bool := db.faults.headD false

/-- Go `db.Exec(query, args...)`: the rows affected, or an error and no effect. -/
def DB.Exec (db : DB) (q : Stmt) : Except Err Nat × DB :=
  if db.failing then (.error .storage, db.next)
  else ((.ok (db.next.run q).1), (db.next.run q).2)

/-- Go `db.QueryRow(query, id)` followed by `row.Scan(...)` of the six columns:
the row, `sql.ErrNoRows` when there is none, or the error of a failed call. -/
def DB.QueryRow (db : DB) (id : Int) : Except Err Account × DB :=
  if db.failing then (.error .storage, db.next)
  else
    match selectByID db.rows id with
    | some r => (.ok r, db.next)
    | none => (.error .noRows, db.next)

/-- Go `db.Query("select * from account")` and the scan of every row. -/
def DB.Query (db : DB) : Except Err (List Account) × DB :=
  if db.failing then (.error .storage, db.next)
  else (.ok db.rows, db.next)

/-! ## storage.go -/

/-- The `PostGresStore` record. -/
structure PostGresStore where
  db : DB
deriving DecidableEq

namespace PostGresStore

/-- Go `CreateAccount`: the count of inserted rows, which this driver hands
over without an error, is printed. -/
def CreateAccount (s : PostGresStore) (a : Account) : Option Err × PostGresStore :=
  match s.db.Exec (.insertAccount a.FirstName a.LastName a.UUID a.Balance a.CreatedAt) with
  | (.error err, db) => (some err, ⟨db⟩)
  | (.ok _, db) => (none, ⟨db⟩)

/-- Go `UpdateAccount`: the count of updated rows is printed, never inspected. -/
def UpdateAccount (s : PostGresStore) (acc : Account) : Option Err × PostGresStore :=
  match s.db.Exec (.updateAccount acc.FirstName acc.LastName acc.Balance acc.ID) with
  | (.error err, db) => (some err, ⟨db⟩)
  | (.ok _, db) => (none, ⟨db⟩)

/-- Go `DeleteAccount`: the count of deleted rows is printed, never inspected. -/
def DeleteAccount (s : PostGresStore) (id : Int) : Option Err × PostGresStore :=
  match s.db.Exec (.deleteAccount id) with
  | (.error err, db) => (some err, ⟨db⟩)
  | (.ok _, db) => (none, ⟨db⟩)

/-- Go `GetAccountByID`: `sql.ErrNoRows` is replaced by the does-not-exist error;
every error comes with a `nil` account. -/
def GetAccountByID (s : PostGresStore) (id : Int) : Except Err Account × PostGresStore :=
  match s.db.QueryRow id with
  | (.error err, db) =>
      if err = .noRows then (.error (.notExist id), ⟨db⟩) else (.error err, ⟨db⟩)
  | (.ok account, db) => (.ok account, ⟨db⟩)

/-- Go `GetAccounts`. -/
def GetAccounts (s : PostGresStore) : Except Err (List Account) × PostGresStore :=
  match s.db.Query with
  | (.error err, db) => (.error err, ⟨db⟩)
  | (.ok accounts, db) => (.ok accounts, ⟨db⟩)

/-- Go `Debit`: writes the `float64` sum `acc.Balance + amt` into the row with
the key `acc.ID`. -/
def Debit (s : PostGresStore) (acc : Account) (amt : F64) : Option Err × PostGresStore :=
  let newBalance := acc.Balance + amt
  match s.db.Exec (.updateBalance newBalance acc.ID) with
  | (.error err, db) => (some err, ⟨db⟩)
  | (.ok _, db) => (none, ⟨db⟩)

/-- Go `Credit`: writes the `float64` difference `acc.Balance - amt` into the row
with the key `acc.ID`. -/
def Credit (s : PostGresStore) (acc : Account) (amt : F64) : Option Err × PostGresStore :=
  let newBalance := acc.Balance - amt
  match s.db.Exec (.updateBalance newBalance acc.ID) with
  | (.error err, db) => (some err, ⟨db⟩)
  | (.ok _, db) => (none, ⟨db⟩)

/-- Go `TransferMoney`: `Debit` on the recipient, then `Credit` on the giver; the
first error is returned as it is. -/
def TransferMoney (s : PostGresStore) (giver recepient : Account) (amount : F64) :
    Option Err × PostGresStore :=
  match s.Debit recepient amount with
  | (some err, s1) => (some err, s1)
  | (none, s1) =>
    match s1.Credit giver amount with
    | (some err, s2) => (some err, s2)
    | (none, s2) => (none, s2)

end PostGresStore

/-! ## api.go

A handler is given the store, the `id` of the path, the request body and the
value that the closing `WriteJSON` is going to return.  It replies with the
error it returns to `makeHTTPHandleFunc`, or it panics. -/

/-- What `json.NewDecoder(r.Body).Decode(&req)` makes of a request body, `req`
being a pointer obtained from `new`. -/
inductive Body (α : Type) where
  /-- The decoder returns an error. -/
  | malformed
  /-- The body is the JSON value `null`: no error, and `req` is now `nil`. -/
  | null
  /-- No error, and `req` points to the decoded record. -/
  | value (v : α)
deriving DecidableEq

/-- How a handler ends. -/
inductive Reply where
  /-- The handler returns this error value (`none` for `nil`). -/
  | returned (err : Option Err)
  /-- The handler dereferences a `nil` request and panics. -/
  | panicked
deriving DecidableEq

/-- Go `handleUpdateAccount`. -/
def handleUpdateAccount (s : PostGresStore) (id : Int) (body : Body Account)
    (written : Option Err) : Reply × PostGresStore :=
  match s.GetAccountByID id with
  | (.error err, s1) => (.returned (some err), s1)
  | (.ok account, s1) =>
    match body with
    | .malformed => (.returned (some .decode), s1)
    | .null => (.panicked, s1)
    | .value toUpdate =>
      match s1.UpdateAccount (GetUpdatedAccount account toUpdate) with
      | (some err, s2) => (.returned (some err), s2)
      | (none, s2) => (.returned written, s2)

/-- Go `handleDeleteAccount`. -/
def handleDeleteAccount (s : PostGresStore) (body : Body Account) (written : Option Err) :
    Reply × PostGresStore :=
  match body with
  | .malformed => (.returned (some .decode), s)
  | .null => (.panicked, s)
  | .value acc =>
    match s.DeleteAccount acc.ID with
    | (some err, s1) => (.returned (some err), s1)
    | (none, s1) => (.returned written, s1)

/-- Go `handleTransfer`. -/
def handleTransfer (s : PostGresStore) (id : Int) (body : Body TransferBalanceRequest)
    (written : Option Err) : Reply × PostGresStore :=
  match s.GetAccountByID id with
  | (.error err, s1) => (.returned (some err), s1)
  | (.ok giver, s1) =>
    match body with
    | .malformed => (.returned (some .decode), s1)
    | .null => (.panicked, s1)
    | .value req =>
      match s1.GetAccountByID req.Recepient with
      | (.error err, s2) => (.returned (some err), s2)
      | (.ok recepient, s2) =>
        match s2.TransferMoney giver recepient req.Amount with
        | (some err, s3) => (.returned (some err), s3)
        | (none, s3) => (.returned written, s3)

/-- Go `handleDebit`. -/
def handleDebit (s : PostGresStore) (id : Int) (body : Body BalanceChangeRequest)
    (written : Option Err) : Reply × PostGresStore :=
  match s.GetAccountByID id with
  | (.error err, s1) => (.returned (some err), s1)
  | (.ok account, s1) =>
    match body with
    | .malformed => (.returned (some .decode), s1)
    | .null => (.panicked, s1)
    | .value req =>
      match s1.Debit account req.Amount with
      | (some err, s2) => (.returned (some err), s2)
      | (none, s2) => (.returned written, s2)

/-- Go `handleCredit`. -/
def handleCredit (s : PostGresStore) (id : Int) (body : Body BalanceChangeRequest)
    (written : Option Err) : Reply × PostGresStore :=
  match s.GetAccountByID id with
  | (.error err, s1) => (.returned (some err), s1)
  | (.ok account, s1) =>
    match body with
    | .malformed => (.returned (some .decode), s1)
    | .null => (.panicked, s1)
    | .value req =>
      match s1.Credit account req.Amount with
      | (some err, s2) => (.returned (some err), s2)
      | (none, s2) => (.returned written, s2)

/-! ## Sample data -/

/-- The row of Alice with key 1 and the given balance. -/
def alice (bal : F64) : Account :=
  { ID := 1, FirstName := "Alice", LastName := "Lee", UUID := "u-1", Balance := bal,
    CreatedAt := 0 }

/-- The row of Bob with key 2 and the given balance. -/
def bob (bal : F64) : Account :=
  { ID := 2, FirstName := "Bob", LastName := "Roe", UUID := "u-2", Balance := bal,
    CreatedAt := 1 }

/-- The amount `0.0001`, as `json.Decode` reads it. -/
def smallAmount : F64 := F64.ofRat 1 10000

/-- The balance `5000000000000`, in whose neighbourhood two adjacent values of
`float64` lie `2^-10` apart. -/
def largeBalance : F64 := 5000000000000

/-- A store holding the given rows, whose database calls fail as listed. -/
def storeOf (rows : List Account) (faults : List Bool) : PostGresStore :=
  ⟨{ rows := rows, nextID := rows.length + 1, faults := faults }⟩

/-! ## Reading the table -/

/-- The stored balance under a key, when the table has a row for it. -/
def balanceOf (s : PostGresStore) (id : Int) : Option F64 :=
  (selectByID s.db.rows id).map (fun r => r.Balance)

/-- Every row whose key is not `id` stands in `rows2` where it stood in `rows1`,
and no row has been added or removed. -/
def othersKept (id : Int) (rows1 rows2 : List Account) : Prop :=
  rows2.length = rows1.length ∧
    ∀ (i : Nat) (r : Account), rows1[i]? = some r → r.ID ≠ id → rows2[i]? = some r

/-- Every field of a record but its balance. -/
def Account.besidesBalance (r : Account) : Int × String × String × String × Nat :=
  (r.ID, r.FirstName, r.LastName, r.UUID, r.CreatedAt)

/-- The fields of a record that name it: `ID`, `UUID` and `CreatedAt`. -/
def Account.identity (r : Account) : Int × String × Nat :=
  (r.ID, r.UUID, r.CreatedAt)

/-! ## Debit requests whose steps interleave

`handleDebit` makes two database calls: the read `GetAccountByID` and the write
`Debit` of the balance it has read plus the amount.  Requests served at the
same time take these steps in some order; a schedule names, step by step, the
request that moves. -/

/-- How far one `handleDebit` request has come. -/
inductive Progress where
  /-- Nothing done yet. -/
  | waiting
  /-- The account has been read and is held by the handler. -/
  | loaded (account : Account)
  /-- The write has been carried out. -/
  | finished
  /-- The request has returned an error. -/
  | failed (err : Err)
deriving DecidableEq

/-- The next database call of one `handleDebit` request for the account `id`
and the amount `a`. -/
def stepRequest (id : Int) (a : F64) (s : PostGresStore) :
    Progress → Progress × PostGresStore
  | .waiting =>
      match s.GetAccountByID id with
      | (.error err, s1) => (.failed err, s1)
      | (.ok account, s1) => (.loaded account, s1)
  | .loaded account =>
      match s.Debit account a with
      | (some err, s1) => (.failed err, s1)
      | (none, s1) => (.finished, s1)
  | .finished => (.finished, s)
  | .failed err => (.failed err, s)

/-- Request number `i` takes its next step. -/
def stepSchedule (id : Int) (a : F64) (st : PostGresStore × List Progress) (i : Nat) :
    PostGresStore × List Progress :=
  match st.2[i]? with
  | none => st
  | some p => ((stepRequest id a st.1 p).2, st.2.set i (stepRequest id a st.1 p).1)

/-- All steps of a schedule, from `n` requests that have not started. -/
def runSchedule (id : Int) (a : F64) (s : PostGresStore) (n : Nat) (schedule : List Nat) :
    PostGresStore × List Progress :=
  schedule.foldl (stepSchedule id a) (s, List.replicate n .waiting)

/-- A schedule is an interleaving of `n` requests when it names only them and
gives each of them its two steps. -/
def isInterleaving (n : Nat) (schedule : List Nat) : Prop :=
  (∀ i ∈ schedule, i < n) ∧ ∀ i, i < n → schedule.count i = 2

instance (n : Nat) (schedule : List Nat) : Decidable (isInterleaving n schedule) := by
  unfold isInterleaving
  infer_instance

/-- The schedule that serves the requests one after another. -/
def serialSchedule : Nat → List Nat
  | 0 => []
  | n + 1 => serialSchedule n ++ [n, n]

/-! ## Facts about the database calls -/

theorem exec_carried_out (db : DB) (q : Stmt) (h : db.failing = false) :
    db.Exec q = (.ok (db.next.run q).1, (db.next.run q).2) := by
  simp [DB.Exec, h]

theorem exec_failed (db : DB) (q : Stmt) (h : db.failing = true) :
    db.Exec q = (.error .storage, db.next) := by
  simp [DB.Exec, h]

theorem failing_cases (db : DB) : db.failing = false ∨ db.failing = true := by
  cases db.failing <;> simp

theorem selectByID_map_of_keyFixed (f : Account → Account) (hf : ∀ r, (f r).ID = r.ID)
    (rows : List Account) (j : Int) :
    selectByID (rows.map f) j = (selectByID rows j).map f := by
  induction rows with
  | nil => rfl
  | cons r rs ih =>
    unfold selectByID at ih ⊢
    by_cases h : r.ID = j
    · simp [List.find?_cons, hf, h]
    · simp [List.find?_cons, hf, h, ih]

theorem selectByID_some_key {rows : List Account} {j : Int} {r : Account}
    (h : selectByID rows j = some r) : r.ID = j := by
  unfold selectByID at h
  have := List.find?_some h
  simpa using this

theorem selectByID_some_mem {rows : List Account} {j : Int} {r : Account}
    (h : selectByID rows j = some r) : r ∈ rows := by
  unfold selectByID at h
  exact List.mem_of_find?_eq_some h

theorem selectByID_none_iff (rows : List Account) (j : Int) :
    selectByID rows j = none ↔ ∀ r ∈ rows, r.ID ≠ j := by
  unfold selectByID
  simp [List.find?_eq_none]

/-- The rows left by `UPDATE account SET balance = bal WHERE id = id`. -/
theorem run_updateBalance_rows (db : DB) (bal : F64) (id : Int) :
    (db.next.run (.updateBalance bal id)).2.rows
      = db.rows.map (fun r => if r.ID == id then { r with Balance := bal } else r) := rfl

theorem selectByID_updateBalance (rows : List Account) (bal : F64) (id j : Int) :
    selectByID (rows.map (fun r => if r.ID == id then { r with Balance := bal } else r)) j
      = (selectByID rows j).map
          (fun r => if r.ID == id then { r with Balance := bal } else r) := by
  apply selectByID_map_of_keyFixed
  intro r
  by_cases h : r.ID = id <;> simp [h]

theorem othersKept_map (id : Int) (f : Account → Account) (hf : ∀ r, r.ID ≠ id → f r = r)
    (rows : List Account) : othersKept id rows (rows.map f) := by
  refine ⟨by simp, ?_⟩
  intro i r hr hne
  simp [List.getElem?_map, hr, hf r hne]

/-! ## Facts about the store operations -/

theorem getAccountByID_carried_out (s : PostGresStore) (id : Int) (h : s.db.failing = false) :
    s.GetAccountByID id
      = (match selectByID s.db.rows id with
         | some r => (.ok r, ⟨s.db.next⟩)
         | none => (.error (.notExist id), ⟨s.db.next⟩)) := by
  unfold PostGresStore.GetAccountByID DB.QueryRow
  cases hsel : selectByID s.db.rows id <;> simp [h]

theorem getAccountByID_failed (s : PostGresStore) (id : Int) (h : s.db.failing = true) :
    s.GetAccountByID id = (.error .storage, ⟨s.db.next⟩) := by
  unfold PostGresStore.GetAccountByID DB.QueryRow
  simp [h]

theorem getAccountByID_ok {s s1 : PostGresStore} {id : Int} {acc : Account}
    (h : s.GetAccountByID id = (.ok acc, s1)) :
    s.db.failing = false ∧ selectByID s.db.rows id = some acc ∧ s1 = ⟨s.db.next⟩ := by
  rcases failing_cases s.db with hf | hf
  · rw [getAccountByID_carried_out s id hf] at h
    cases hsel : selectByID s.db.rows id with
    | none => simp [hsel] at h
    | some r =>
      simp only [hsel, Prod.mk.injEq, Except.ok.injEq] at h
      exact ⟨hf, by rw [h.1], h.2.symm⟩
  · rw [getAccountByID_failed s id hf] at h
    simp at h

theorem debit_carried_out (s : PostGresStore) (acc : Account) (amt : F64)
    (h : s.db.failing = false) :
    s.Debit acc amt
      = (none, ⟨(s.db.next.run (.updateBalance (acc.Balance + amt) acc.ID)).2⟩) := by
  simp [PostGresStore.Debit, exec_carried_out _ _ h]

theorem debit_failed (s : PostGresStore) (acc : Account) (amt : F64)
    (h : s.db.failing = true) :
    s.Debit acc amt = (some .storage, ⟨s.db.next⟩) := by
  simp [PostGresStore.Debit, exec_failed _ _ h]

theorem credit_carried_out (s : PostGresStore) (acc : Account) (amt : F64)
    (h : s.db.failing = false) :
    s.Credit acc amt
      = (none, ⟨(s.db.next.run (.updateBalance (acc.Balance - amt) acc.ID)).2⟩) := by
  simp [PostGresStore.Credit, exec_carried_out _ _ h]

theorem credit_failed (s : PostGresStore) (acc : Account) (amt : F64)
    (h : s.db.failing = true) :
    s.Credit acc amt = (some .storage, ⟨s.db.next⟩) := by
  simp [PostGresStore.Credit, exec_failed _ _ h]

theorem debit_none {s s1 : PostGresStore} {acc : Account} {amt : F64}
    (h : s.Debit acc amt = (none, s1)) :
    s.db.failing = false ∧
      s1 = ⟨(s.db.next.run (.updateBalance (acc.Balance + amt) acc.ID)).2⟩ := by
  rcases failing_cases s.db with hf | hf
  · rw [debit_carried_out s acc amt hf] at h
    exact ⟨hf, (Prod.mk.inj h).2.symm⟩
  · rw [debit_failed s acc amt hf] at h
    simp at h

theorem credit_none {s s1 : PostGresStore} {acc : Account} {amt : F64}
    (h : s.Credit acc amt = (none, s1)) :
    s.db.failing = false ∧
      s1 = ⟨(s.db.next.run (.updateBalance (acc.Balance - amt) acc.ID)).2⟩ := by
  rcases failing_cases s.db with hf | hf
  · rw [credit_carried_out s acc amt hf] at h
    exact ⟨hf, (Prod.mk.inj h).2.symm⟩
  · rw [credit_failed s acc amt hf] at h
    simp at h

theorem credit_some {s s1 : PostGresStore} {acc : Account} {amt : F64} {e : Err}
    (h : s.Credit acc amt = (some e, s1)) :
    s.db.failing = true ∧ e = .storage ∧ s1 = ⟨s.db.next⟩ := by
  rcases failing_cases s.db with hf | hf
  · rw [credit_carried_out s acc amt hf] at h
    simp at h
  · rw [credit_failed s acc amt hf] at h
    simp only [Prod.mk.injEq, Option.some.injEq] at h
    exact ⟨hf, h.1.symm, h.2.symm⟩

theorem transferMoney_none {s s3 : PostGresStore} {giver recepient : Account} {amount : F64}
    (h : s.TransferMoney giver recepient amount = (none, s3)) :
    ∃ s1, s.Debit recepient amount = (none, s1) ∧ s1.Credit giver amount = (none, s3) := by
  unfold PostGresStore.TransferMoney at h
  rcases hd : s.Debit recepient amount with ⟨_ | e, s1⟩
  · rw [hd] at h
    simp only at h
    rcases hc : s1.Credit giver amount with ⟨_ | e, s2⟩
    · rw [hc] at h
      simp only [Prod.mk.injEq, true_and] at h
      exact ⟨s1, rfl, by rw [hc, h]⟩
    · rw [hc] at h
      simp at h
  · rw [hd] at h
    simp at h

/-- The rows left by one carried-out balance write. -/
theorem rows_after_write (db : DB) (bal : F64) (id : Int) :
    (PostGresStore.mk (db.next.run (.updateBalance bal id)).2).db.rows
      = db.rows.map (fun r => if r.ID == id then { r with Balance := bal } else r) := rfl

theorem selectByID_write (db : DB) (bal : F64) (id j : Int) :
    selectByID (PostGresStore.mk (db.next.run (.updateBalance bal id)).2).db.rows j
      = if j = id then (selectByID db.rows j).map (fun r => { r with Balance := bal })
        else selectByID db.rows j := by
  rw [rows_after_write, selectByID_updateBalance]
  cases hsel : selectByID db.rows j with
  | none => simp
  | some r =>
    have hk := selectByID_some_key hsel
    by_cases h : j = id
    · simp [h, hk ▸ h]
    · have : ¬ r.ID = id := by rw [hk]; exact h
      simp [h, this]

theorem balanceOf_write (db : DB) (bal : F64) (id j : Int) :
    balanceOf (PostGresStore.mk (db.next.run (.updateBalance bal id)).2) j
      = if j = id then (balanceOf ⟨db⟩ j).map (fun _ => bal) else balanceOf ⟨db⟩ j := by
  unfold balanceOf
  rw [selectByID_write]
  by_cases h : j = id
  · cases hsel : selectByID db.rows id <;> simp [h, hsel]
  · simp [h]

theorem othersKept_write (db : DB) (bal : F64) (id : Int) :
    othersKept id db.rows (PostGresStore.mk (db.next.run (.updateBalance bal id)).2).db.rows := by
  rw [rows_after_write]
  apply othersKept_map
  intro r hne
  simp [hne]

/-! ## Facts about `float64` -/

theorem bitLengthAux_le (L : Nat) :
    ∀ fuel n acc : Nat, n < 2 ^ L → bitLengthAux fuel n acc ≤ acc + L := by
  induction L with
  | zero =>
    intro fuel n acc hn
    have hn0 : n = 0 := by simpa using hn
    cases fuel with
    | zero => simp [bitLengthAux]
    | succ f => simp [bitLengthAux, hn0]
  | succ L ih =>
    intro fuel n acc hn
    cases fuel with
    | zero => simp [bitLengthAux]
    | succ f =>
      unfold bitLengthAux
      by_cases h0 : n = 0
      · simp [h0]
      · have hhalf : n / 2 < 2 ^ L := by
          rw [Nat.div_lt_iff_lt_mul (by decide)]
          calc n < 2 ^ (L + 1) := hn
            _ = 2 ^ L * 2 := by rw [Nat.pow_succ]
        have := ih f (n / 2) (acc + 1) hhalf
        simp only [h0, if_false]
        omega

theorem bitLength_le (n L : Nat) (h : n < 2 ^ L) : bitLength n ≤ L := by
  have := bitLengthAux_le L n n 0 h
  simpa [bitLength] using this

theorem roundHalfEven_of_dvd (n d : Nat) (hd : 0 < d) (h : d ∣ n) :
    roundHalfEven n d = n / d := by
  have hmod : n % d = 0 := Nat.mod_eq_zero_of_dvd h
  simp [roundHalfEven, hmod, hd]

/-- A value that `float64` has is its own nearest value. -/
theorem round_of_representable (k : Int) (h : F64.representable k) :
    F64.round k = .fin k := by
  obtain ⟨hlim, m, e, hm, hk⟩ := h
  have hlt : k.natAbs < 2 ^ (53 + e) := by
    rw [hk, Nat.pow_add]
    exact Nat.mul_lt_mul_of_lt_of_le hm (Nat.le_refl _) (Nat.two_pow_pos _)
  have hbits : bitLength k.natAbs ≤ 53 + e := bitLength_le _ _ hlt
  have hshift : bitLength k.natAbs - 53 ≤ e := by omega
  have hdvd : 2 ^ (bitLength k.natAbs - 53) ∣ k.natAbs := by
    exact Dvd.dvd.trans (Nat.pow_dvd_pow 2 hshift) ⟨m, by rw [hk, Nat.mul_comm]⟩
  have hround : roundHalfEven k.natAbs (1 * 2 ^ (bitLength k.natAbs - 53))
      * 2 ^ (bitLength k.natAbs - 53) = k.natAbs := by
    rw [Nat.one_mul, roundHalfEven_of_dvd _ _ (Nat.two_pow_pos _) hdvd,
      Nat.div_mul_cancel hdvd]
  unfold F64.round F64.nearest
  simp only [Nat.div_one, hround, Nat.not_le.mpr hlim, if_false]
  congr 1
  by_cases hneg : k < 0
  · simp only [hneg, decide_True, if_true]
    omega
  · simp only [hneg, decide_False]
    simp only [Bool.false_eq_true, if_false]
    omega

theorem fin_add_fin (a b : Int) : F64.fin a + F64.fin b = F64.round (a + b) := by
  show F64.add (F64.fin a) (F64.fin b) = _
  unfold F64.add
  rfl

theorem fin_sub_fin (a b : Int) : F64.fin a - F64.fin b = F64.round (a + -b) := by
  show F64.sub (F64.fin a) (F64.fin b) = _
  unfold F64.sub F64.neg F64.add
  rfl

/-- A `float64` sum is the sum itself when `float64` has that value. -/
theorem add_of_representable (a b : Int) (h : F64.representable (a + b)) :
    F64.fin a + F64.fin b = F64.fin (a + b) := by
  rw [fin_add_fin]
  exact round_of_representable (a + b) h

/-- A `float64` difference is the difference itself when `float64` has that
value. -/
theorem sub_of_representable (a b : Int) (h : F64.representable (a - b)) :
    F64.fin a - F64.fin b = F64.fin (a - b) := by
  have h2 : F64.representable (a + -b) := by rwa [← Int.sub_eq_add_neg]
  rw [fin_sub_fin, round_of_representable (a + -b) h2, ← Int.sub_eq_add_neg]

theorem scale_pos : 0 < F64.scale := by
  unfold F64.scale
  apply Nat.pos_pow_of_pos
  decide

theorem scale_limit : 2 ^ 53 * F64.scale ≤ F64.limit := by
  unfold F64.scale F64.limit
  rw [← Nat.pow_add]
  apply Nat.pow_le_pow_right
  · decide
  · decide

/-- Whole numbers below `2^53` in magnitude are values of `float64`. -/
theorem representable_whole (z : Int) (h : z.natAbs < 2 ^ 53) :
    F64.representable (z * F64.scale) := by
  have habs : (z * (F64.scale : Int)).natAbs = z.natAbs * F64.scale := by
    rw [Int.natAbs_mul]
    rfl
  refine ⟨?_, z.natAbs, 1074, h, habs⟩
  rw [habs]
  exact Nat.lt_of_lt_of_le ((Nat.mul_lt_mul_right scale_pos).mpr h) scale_limit

theorem bitLengthAux_spec (fuel : Nat) :
    ∀ n acc : Nat, n ≤ fuel → ∃ L, bitLengthAux fuel n acc = acc + L ∧ n < 2 ^ L := by
  induction fuel with
  | zero =>
    intro n acc hn
    have hn0 : n = 0 := Nat.le_zero.mp hn
    exact ⟨0, by simp [bitLengthAux], by simp [hn0]⟩
  | succ f ih =>
    intro n acc hn
    by_cases h0 : n = 0
    · exact ⟨0, by simp [bitLengthAux, h0], by simp [h0]⟩
    · have hhalf : n / 2 ≤ f := by omega
      obtain ⟨L, hL, hlt⟩ := ih (n / 2) (acc + 1) hhalf
      refine ⟨L + 1, ?_, ?_⟩
      · unfold bitLengthAux
        simp only [h0, if_false]
        omega
      · rw [Nat.pow_succ]
        omega

theorem lt_two_pow_bitLength (n : Nat) : n < 2 ^ bitLength n := by
  obtain ⟨L, hL, hlt⟩ := bitLengthAux_spec n n 0 (Nat.le_refl n)
  unfold bitLength
  rw [hL, Nat.zero_add]
  exact hlt

theorem roundHalfEven_le (n d : Nat) : roundHalfEven n d ≤ n / d + 1 := by
  unfold roundHalfEven
  split
  · omega
  · split
    · omega
    · split <;> omega

/-- The operations of `float64` give values of `float64`: what `F64.nearest`
returns as finite has at most 53 binary digits followed by zeros and lies below
`2^1024`. -/
theorem nearest_is_value (negative : Bool) (n d : Nat) (k : Int)
    (h : F64.nearest negative n d = .fin k) : F64.representable k := by
  unfold F64.nearest at h
  simp only at h
  split at h
  · exact absurd h (by simp)
  · rename_i hlim
    have hk := F64.fin.inj h
    have habs : k.natAbs = roundHalfEven n (d * 2 ^ (bitLength (n / d) - 53))
        * 2 ^ (bitLength (n / d) - 53) := by
      rw [← hk]
      split
      · rw [Int.natAbs_neg, Int.natAbs_ofNat]
      · rw [Int.natAbs_ofNat]
    have hq : roundHalfEven n (d * 2 ^ (bitLength (n / d) - 53)) ≤ 2 ^ 53 := by
      have h1 := roundHalfEven_le n (d * 2 ^ (bitLength (n / d) - 53))
      have h2 : n / (d * 2 ^ (bitLength (n / d) - 53)) < 2 ^ 53 := by
        rw [← Nat.div_div_eq_div_mul, Nat.div_lt_iff_lt_mul (Nat.two_pow_pos _),
          ← Nat.pow_add]
        exact Nat.lt_of_lt_of_le (lt_two_pow_bitLength (n / d))
          (Nat.pow_le_pow_right (by decide) (by omega))
      omega
    refine ⟨by rw [habs]; exact Nat.not_le.mp hlim, ?_⟩
    rcases Nat.lt_or_eq_of_le hq with hlt | heq
    · exact ⟨_, _, hlt, habs⟩
    · refine ⟨1, 53 + (bitLength (n / d) - 53), by decide, ?_⟩
      rw [habs, heq, Nat.one_mul, Nat.pow_add]

/-- A calibration of the arithmetic against two well-known facts of `float64`:
the literal `0.1` is `0x1999999999999a * 2^-56`, and `0.1 + 0.2` is
`0x13333333333334 * 2^-54`, which is not the literal `0.3`. -/
theorem float64_calibration :
    F64.ofRat 1 10 = F64.fin (0x1999999999999a * 2 ^ (1074 - 56)) ∧
    F64.ofRat 1 10 + F64.ofRat 2 10 = F64.fin (0x13333333333334 * 2 ^ (1074 - 54)) ∧
    F64.ofRat 1 10 + F64.ofRat 2 10 ≠ F64.ofRat 3 10 := by
  decide!

theorem ne_eq_false {x y : F64} (h : F64.ne x y = false) : x = y := by
  cases x <;> cases y <;> simp_all [F64.ne]

/-! ## Transfers -/

/-- Claim C1, as the code has it: when the giver `S` and the recipient `D` have
been read from the store under two different keys, as `handleTransfer` reads
them, and `TransferMoney S D A` returns no error, then the stored balance of
`D` is the `float64` sum of its former balance and `A`, and the stored balance
of `S` is the `float64` difference of its former balance and `A`.  Whenever
these two results are values of `float64`, so that nothing is rounded, the
balance of `D` is its former balance plus `A`, the balance of `S` is its former
balance minus `A`, and the two stored balances add up to what they added up to
before. -/
theorem transfer_conservation (s s1 s2 s3 : PostGresStore) (sid did : Int) (S D : Account)
    (A : F64) (hne : sid ≠ did)
    (hS : s.GetAccountByID sid = (.ok S, s1))
    (hD : s1.GetAccountByID did = (.ok D, s2))
    (hT : s2.TransferMoney S D A = (none, s3)) :
    balanceOf s sid = some S.Balance ∧ balanceOf s did = some D.Balance ∧
    balanceOf s3 did = some (D.Balance + A) ∧ balanceOf s3 sid = some (S.Balance - A) ∧
    ∀ kS kD kA : Int, S.Balance = .fin kS → D.Balance = .fin kD → A = .fin kA →
      F64.representable (kD + kA) → F64.representable (kS - kA) →
      ∃ bS2 bD2 : F64, balanceOf s3 sid = some bS2 ∧ balanceOf s3 did = some bD2 ∧
        bD2.steps = F64.exactAdd D.Balance A ∧ bS2.steps = F64.exactSub S.Balance A ∧
        F64.exactAdd bS2 bD2 = F64.exactAdd S.Balance D.Balance := by
  obtain ⟨-, hselS, rfl⟩ := getAccountByID_ok hS
  obtain ⟨-, hselD, rfl⟩ := getAccountByID_ok hD
  obtain ⟨t1, hdeb, hcred⟩ := transferMoney_none hT
  obtain ⟨-, rfl⟩ := debit_none hdeb
  obtain ⟨-, rfl⟩ := credit_none hcred
  have hkS : S.ID = sid := selectByID_some_key hselS
  have hkD : D.ID = did := selectByID_some_key hselD
  have hselS2 : selectByID s.db.rows sid = some S := hselS
  have hselD2 : selectByID s.db.rows did = some D := hselD
  have hbS : balanceOf s sid = some S.Balance := by simp [balanceOf, hselS2]
  have hbD : balanceOf s did = some D.Balance := by simp [balanceOf, hselD2]
  have hD3 : balanceOf (PostGresStore.mk ((PostGresStore.mk
      (s.db.next.next.next.run (.updateBalance (D.Balance + A) D.ID)).2).db.next.run
        (.updateBalance (S.Balance - A) S.ID)).2) did = some (D.Balance + A) := by
    rw [balanceOf_write, balanceOf_write, hkS, hkD]
    simp [Ne.symm hne, balanceOf, DB.next, hselD2]
  have hS3 : balanceOf (PostGresStore.mk ((PostGresStore.mk
      (s.db.next.next.next.run (.updateBalance (D.Balance + A) D.ID)).2).db.next.run
        (.updateBalance (S.Balance - A) S.ID)).2) sid = some (S.Balance - A) := by
    rw [balanceOf_write, balanceOf_write, hkS, hkD]
    simp [hne, balanceOf, DB.next, hselS2]
  refine ⟨hbS, hbD, hD3, hS3, ?_⟩
  intro kS kD kA hkS2 hkD2 hkA hrD hrS
  refine ⟨S.Balance - A, D.Balance + A, hS3, hD3, ?_, ?_, ?_⟩
  · rw [hkD2, hkA, add_of_representable kD kA hrD]
    rfl
  · rw [hkS2, hkA, sub_of_representable kS kA hrS]
    rfl
  · rw [hkS2, hkD2, hkA, add_of_representable kD kA hrD, sub_of_representable kS kA hrS]
    show some (kS - kA + (kD + kA)) = some (kS + kD)
    congr 1
    ring

/-- Conservation at work: 10 from Alice (30) to Bob (0). -/
theorem transfer_conservation_witness :
    balanceOf (storeOf [alice 20, bob 10] []) 2 = some 10 ∧
    balanceOf (storeOf [alice 20, bob 10] []) 1 = some 20 ∧
    ∃ bS2 bD2 : F64, balanceOf (storeOf [alice 20, bob 10] []) 1 = some bS2 ∧
      balanceOf (storeOf [alice 20, bob 10] []) 2 = some bD2 ∧
      F64.exactAdd bS2 bD2 = F64.exactAdd 30 0 := by
  have h := transfer_conservation (storeOf [alice 30, bob 0] []) (storeOf [alice 30, bob 0] [])
    (storeOf [alice 30, bob 0] []) (storeOf [alice 20, bob 10] []) 1 2 (alice 30) (bob 0) 10
    (by decide) (by decide!) (by decide!) (by decide!)
  obtain ⟨bS2, bD2, h1, h2, -, -, h5⟩ := h.2.2.2.2 (30 * F64.scale) (0 * F64.scale)
    (10 * F64.scale) (by decide!) (by decide!) (by decide!)
    (by rw [← Int.add_mul]; exact representable_whole _ (by decide))
    (by rw [← Int.sub_mul]; exact representable_whole _ (by decide))
  exact ⟨h.2.2.1.trans (by decide!), h.2.2.2.1.trans (by decide!), bS2, bD2, h1, h2, h5⟩

/-- Claim C1 as written fails in two ways.  When giver and recipient are the
same account, both are read with balance 30, the transfer of 10 returns no
error, and the stored balance is then 20, not 30 + 10.  And between two
accounts, a transfer of 0.0001 from a balance of 1 to a balance of
5000000000000 returns no error and leaves the balance of the recipient as it
was, the `float64` sum being rounded back to it, so that the two balances add
up to less than before. -/
theorem transfer_conservation_fails :
    ((storeOf [alice 30] []).GetAccountByID 1 = (.ok (alice 30), storeOf [alice 30] []) ∧
      (storeOf [alice 30] []).TransferMoney (alice 30) (alice 30) 10
        = (none, storeOf [alice 20] []) ∧
      balanceOf (storeOf [alice 30] []) 1 = some 30 ∧
      balanceOf (storeOf [alice 20] []) 1 = some 20 ∧
      balanceOf (storeOf [alice 20] []) 1 ≠ some (30 + 10)) ∧
    ((storeOf [alice 1, bob largeBalance] []).GetAccountByID 1
        = (.ok (alice 1), storeOf [alice 1, bob largeBalance] []) ∧
      (storeOf [alice 1, bob largeBalance] []).GetAccountByID 2
        = (.ok (bob largeBalance), storeOf [alice 1, bob largeBalance] []) ∧
      (storeOf [alice 1, bob largeBalance] []).TransferMoney (alice 1) (bob largeBalance)
          smallAmount
        = (none, storeOf [alice (1 - smallAmount), bob largeBalance] []) ∧
      balanceOf (storeOf [alice (1 - smallAmount), bob largeBalance] []) 2 = some largeBalance ∧
      largeBalance.steps ≠ F64.exactAdd largeBalance smallAmount ∧
      F64.exactAdd (1 - smallAmount) largeBalance ≠ F64.exactAdd 1 largeBalance) := by
  decide!

/-- Claim C2, as the code has it: when the first leg of `TransferMoney` (the
`Debit` on the recipient) returns no error and the second leg (the `Credit` on
the giver) returns an error, `TransferMoney` returns that error and the store
is the one the first leg left: the row of the recipient holds the `float64`
sum of the balance of the recipient record and the amount, and every row under
another key is as it was before the call. -/
theorem transfer_second_leg_failure (s s1 s2 : PostGresStore) (S D : Account) (A : F64)
    (e : Err) (h1 : s.Debit D A = (none, s1)) (h2 : s1.Credit S A = (some e, s2)) :
    s.TransferMoney S D A = (some e, s2) ∧
    s2.db.rows = s1.db.rows ∧
    selectByID s2.db.rows D.ID
      = (selectByID s.db.rows D.ID).map (fun r => { r with Balance := D.Balance + A }) ∧
    (∀ j, j ≠ D.ID → selectByID s2.db.rows j = selectByID s.db.rows j) ∧
    othersKept D.ID s.db.rows s2.db.rows := by
  obtain ⟨-, rfl⟩ := debit_none h1
  obtain ⟨-, -, rfl⟩ := credit_some h2
  refine ⟨?_, rfl, ?_, ?_, ?_⟩
  · unfold PostGresStore.TransferMoney
    rw [h1]
    simp only
    rw [h2]
  · show selectByID (PostGresStore.mk
      (s.db.next.run (.updateBalance (D.Balance + A) D.ID)).2).db.rows D.ID = _
    rw [selectByID_write]
    simp
  · intro j hj
    show selectByID (PostGresStore.mk
      (s.db.next.run (.updateBalance (D.Balance + A) D.ID)).2).db.rows j = _
    rw [selectByID_write]
    simp [hj]
  · exact othersKept_write s.db (D.Balance + A) D.ID

/-- A failing second leg at work: the second database call of a transfer of 10
from Alice (30) to Bob (0) fails. -/
theorem transfer_second_leg_failure_witness :
    (storeOf [alice 30, bob 0] [false, true]).TransferMoney (alice 30) (bob 0) 10
      = (some .storage, storeOf [alice 30, bob 10] []) ∧
    selectByID (storeOf [alice 30, bob 10] []).db.rows 2 = some (bob 10) ∧
    selectByID (storeOf [alice 30, bob 10] []).db.rows 1 = some (alice 30) := by
  have h := transfer_second_leg_failure (storeOf [alice 30, bob 0] [false, true])
    (storeOf [alice 30, bob 10] [true]) (storeOf [alice 30, bob 10] []) (alice 30) (bob 0) 10
    .storage (by decide!) (by decide!)
  exact ⟨h.1, h.2.2.1.trans (by decide!), (h.2.2.2.1 1 (by decide)).trans (by decide!)⟩

/-- Claim C2 as written fails: the first leg is carried out, the second leg
fails, `TransferMoney` returns an error, and the stored balance of the
recipient is 10 where it was 0 before the call. -/
theorem transfer_not_atomic :
    (storeOf [alice 30, bob 0] [false, true]).Debit (bob 0) 10
      = (none, storeOf [alice 30, bob 10] [true]) ∧
    (storeOf [alice 30, bob 10] [true]).Credit (alice 30) 10
      = (some .storage, storeOf [alice 30, bob 10] []) ∧
    (storeOf [alice 30, bob 0] [false, true]).TransferMoney (alice 30) (bob 0) 10
      = (some .storage, storeOf [alice 30, bob 10] []) ∧
    balanceOf (storeOf [alice 30, bob 0] [false, true]) 2 = some 0 ∧
    balanceOf (storeOf [alice 30, bob 10] []) 2 = some 10 ∧
    balanceOf (storeOf [alice 30, bob 10] []) 2
      ≠ balanceOf (storeOf [alice 30, bob 0] [false, true]) 2 := by
  decide!

/-- Claim C10, as the code has it: when both arguments of `TransferMoney` are
the record of one account `X`, read from the store before the call under its
key, and the call returns no error, the stored row of `X` is the record read
with the `float64` difference `b - A` as its balance, `b` being the balance
read: the second leg overwrites the first.  Whenever that difference is a value
of `float64`, so that nothing is rounded, the stored balance is `b` minus `A`,
and for `A ≠ 0` it is not `b`. -/
theorem self_transfer (s s1 s2 s3 : PostGresStore) (id : Int) (X1 X2 : Account) (A : F64)
    (hG : s.GetAccountByID id = (.ok X1, s1))
    (hR : s1.GetAccountByID id = (.ok X2, s2))
    (hT : s2.TransferMoney X1 X2 A = (none, s3)) :
    X1 = X2 ∧ selectByID s.db.rows id = some X1 ∧
    selectByID s3.db.rows id = some { X1 with Balance := X1.Balance - A } ∧
    balanceOf s id = some X1.Balance ∧
    balanceOf s3 id = some (X1.Balance - A) ∧
    ∀ kb ka : Int, X1.Balance = .fin kb → A = .fin ka → F64.representable (kb - ka) →
      balanceOf s3 id = some (.fin (kb - ka)) ∧
      (balanceOf s3 id).bind F64.steps = F64.exactSub X1.Balance A ∧
      (ka ≠ 0 → balanceOf s3 id ≠ balanceOf s id) := by
  obtain ⟨-, hsel1, rfl⟩ := getAccountByID_ok hG
  obtain ⟨-, hsel2, rfl⟩ := getAccountByID_ok hR
  have hsel1b : selectByID s.db.rows id = some X1 := hsel1
  have hsel2b : selectByID s.db.rows id = some X2 := hsel2
  have hX : X1 = X2 := Option.some.inj (hsel1b.symm.trans hsel2b)
  subst hX
  obtain ⟨t1, hdeb, hcred⟩ := transferMoney_none hT
  obtain ⟨-, rfl⟩ := debit_none hdeb
  obtain ⟨-, rfl⟩ := credit_none hcred
  have hk : X1.ID = id := selectByID_some_key hsel1b
  have hrow : selectByID (PostGresStore.mk ((PostGresStore.mk
      (s.db.next.next.next.run (.updateBalance (X1.Balance + A) X1.ID)).2).db.next.run
        (.updateBalance (X1.Balance - A) X1.ID)).2).db.rows id
      = some { X1 with Balance := X1.Balance - A } := by
    rw [selectByID_write, selectByID_write, hk]
    simp [DB.next, hsel1b, hk]
  have hb : balanceOf s id = some X1.Balance := by simp [balanceOf, hsel1b]
  have hb3 : balanceOf (PostGresStore.mk ((PostGresStore.mk
      (s.db.next.next.next.run (.updateBalance (X1.Balance + A) X1.ID)).2).db.next.run
        (.updateBalance (X1.Balance - A) X1.ID)).2) id = some (X1.Balance - A) := by
    simp [balanceOf, hrow]
  refine ⟨rfl, hsel1b, hrow, hb, hb3, ?_⟩
  intro kb ka hkb hka hrep
  have hsub : X1.Balance - A = .fin (kb - ka) := by
    rw [hkb, hka, sub_of_representable kb ka hrep]
  refine ⟨by rw [hb3, hsub], ?_, ?_⟩
  · rw [hb3, hsub, hkb, hka]
    rfl
  · intro hne
    rw [hb3, hb, hsub, hkb]
    intro heq
    have : kb - ka = kb := F64.fin.inj (Option.some.inj heq)
    omega

/-- A self-transfer at work: a transfer of 10 from Alice (30) to Alice. -/
theorem self_transfer_witness :
    selectByID (storeOf [alice 20] []).db.rows 1 = some (alice 20) ∧
    balanceOf (storeOf [alice 20] []) 1 ≠ balanceOf (storeOf [alice 30] []) 1 := by
  have h := self_transfer (storeOf [alice 30] []) (storeOf [alice 30] [])
    (storeOf [alice 30] []) (storeOf [alice 20] []) 1 (alice 30) (alice 30) 10
    (by decide!) (by decide!) (by decide!)
  have h2 := h.2.2.2.2.2 (30 * F64.scale) (10 * F64.scale) (by decide!) (by decide!)
    (by rw [← Int.sub_mul]; exact representable_whole _ (by decide))
  exact ⟨h.2.2.1.trans (by decide!), h2.2.2 (by decide!)⟩

/-- Claim C10 as written fails: the account is read with the balance
5000000000000, the transfer of 0.0001 to itself returns no error, and the
stored balance is then the balance read, not that balance minus 0.0001: the
`float64` difference is rounded back to it. -/
theorem self_transfer_keeps_balance :
    (storeOf [bob largeBalance] []).GetAccountByID 2
      = (.ok (bob largeBalance), storeOf [bob largeBalance] []) ∧
    (storeOf [bob largeBalance] []).TransferMoney (bob largeBalance) (bob largeBalance)
        smallAmount
      = (none, storeOf [bob largeBalance] []) ∧
    balanceOf (storeOf [bob largeBalance] []) 2 = some largeBalance ∧
    smallAmount ≠ 0 ∧
    largeBalance.steps ≠ F64.exactSub largeBalance smallAmount := by
  decide!

/-! ## Debit and credit -/

theorem besidesBalance_write (db : DB) (bal : F64) (id : Int) :
    (PostGresStore.mk (db.next.run (.updateBalance bal id)).2).db.rows.map
        Account.besidesBalance
      = db.rows.map Account.besidesBalance := by
  rw [rows_after_write, List.map_map]
  apply List.map_congr_left
  intro r _
  by_cases h : r.ID = id <;> simp [Account.besidesBalance, h]

/-- Claim C4, as the code has it: when the table has a row under `id` and the
two database calls are carried out, reading the account and calling `Debit`
with the record read returns no error and leaves that row with the `float64`
sum of its balance `b` and `a`; reading it and calling `Credit` leaves it with
the `float64` difference of `b` and `a`.  Whenever `b + a` (or `b - a`) is a
value of `float64`, so that nothing is rounded, the stored balance is `b + a`
(or `b - a`).  In both cases the other fields of the row, and every row under
another key, are as before.  From a fresh account, a debit of 50 gives 50 and
a credit of 20 then gives 30. -/
theorem debit_credit_mutation (s : PostGresStore) (id : Int) (row : Account) (a : F64)
    (hrow : selectByID s.db.rows id = some row)
    (h1 : s.db.failing = false) (h2 : s.db.next.failing = false) :
    (∃ s1, s.GetAccountByID id = (.ok row, s1) ∧
      (∃ s2, s1.Debit row a = (none, s2) ∧
        selectByID s2.db.rows id = some { row with Balance := row.Balance + a } ∧
        othersKept id s.db.rows s2.db.rows ∧
        s2.db.rows.map Account.besidesBalance = s.db.rows.map Account.besidesBalance) ∧
      (∃ s2, s1.Credit row a = (none, s2) ∧
        selectByID s2.db.rows id = some { row with Balance := row.Balance - a } ∧
        othersKept id s.db.rows s2.db.rows ∧
        s2.db.rows.map Account.besidesBalance = s.db.rows.map Account.besidesBalance)) ∧
    (∀ kb ka : Int, row.Balance = .fin kb → a = .fin ka →
      (F64.representable (kb + ka) → row.Balance + a = .fin (kb + ka)) ∧
      (F64.representable (kb - ka) → row.Balance - a = .fin (kb - ka))) ∧
    (storeOf [] []).CreateAccount (NewAccount ⟨"Alice", "Lee"⟩ "u-1" 0)
      = (none, storeOf [alice 0] []) ∧
    handleDebit (storeOf [alice 0] []) 1 (.value ⟨50⟩) none
      = (.returned none, storeOf [alice 50] []) ∧
    handleCredit (storeOf [alice 50] []) 1 (.value ⟨20⟩) none
      = (.returned none, storeOf [alice 30] []) := by
  have hk : row.ID = id := selectByID_some_key hrow
  have hget : s.GetAccountByID id = (.ok row, ⟨s.db.next⟩) := by
    rw [getAccountByID_carried_out s id h1, hrow]
  have hsel : ∀ bal : F64,
      selectByID (PostGresStore.mk (s.db.next.next.run (.updateBalance bal row.ID)).2).db.rows id
        = some { row with Balance := bal } := by
    intro bal
    rw [selectByID_write, hk]
    simp [DB.next, hrow, hk]
  refine ⟨⟨⟨s.db.next⟩, hget, ⟨_, debit_carried_out ⟨s.db.next⟩ row a h2, hsel _, ?_, ?_⟩,
    ⟨_, credit_carried_out ⟨s.db.next⟩ row a h2, hsel _, ?_, ?_⟩⟩, ?_, by decide!, by decide!,
    by decide!⟩
  · exact hk ▸ othersKept_write s.db.next (row.Balance + a) row.ID
  · exact besidesBalance_write s.db.next (row.Balance + a) row.ID
  · exact hk ▸ othersKept_write s.db.next (row.Balance - a) row.ID
  · exact besidesBalance_write s.db.next (row.Balance - a) row.ID
  · intro kb ka hkb hka
    rw [hkb, hka]
    exact ⟨add_of_representable kb ka, sub_of_representable kb ka⟩

/-- A balance write at work: a debit of 50 on Alice (0). -/
theorem debit_credit_mutation_witness :
    ∃ s1 s2, (storeOf [alice 0, bob 7] []).GetAccountByID 1 = (.ok (alice 0), s1) ∧
      s1.Debit (alice 0) 50 = (none, s2) ∧
      selectByID s2.db.rows 1 = some (alice 50) := by
  obtain ⟨⟨s1, hget, ⟨s2, hdeb, hsel, -⟩, -⟩, -⟩ :=
    debit_credit_mutation (storeOf [alice 0, bob 7] []) 1 (alice 0) 50
      (by decide!) (by decide) (by decide)
  exact ⟨s1, s2, hget, hdeb, hsel.trans (by decide!)⟩

/-- Claim C4 as written fails: the account is read with the balance
5000000000000, and a debit of 0.0001, like a credit of 0.0001, returns no
error and leaves the stored balance as it was: the `float64` sum and the
`float64` difference are rounded back to the balance read. -/
theorem debit_keeps_balance :
    (storeOf [bob largeBalance] []).GetAccountByID 2
      = (.ok (bob largeBalance), storeOf [bob largeBalance] []) ∧
    (storeOf [bob largeBalance] []).Debit (bob largeBalance) smallAmount
      = (none, storeOf [bob largeBalance] []) ∧
    (storeOf [bob largeBalance] []).Credit (bob largeBalance) smallAmount
      = (none, storeOf [bob largeBalance] []) ∧
    balanceOf (storeOf [bob largeBalance] []) 2 = some largeBalance ∧
    largeBalance.steps ≠ F64.exactAdd largeBalance smallAmount ∧
    largeBalance.steps ≠ F64.exactSub largeBalance smallAmount := by
  decide!

/-! ## The merge of an update -/

/-- Claim C3: `GetUpdatedAccount existing patch` carries the first name of the
patch when that is not empty and the first name of `existing` otherwise, the
last name by the same rule, and the balance of the patch.  In particular
`{A, B, 100}` merged with `{"", C, 100}` is `{A, C, 100}`. -/
theorem getUpdatedAccount_merge (existing patch : Account) (id id2 : Int) (u u2 : String)
    (c c2 : Nat) :
    (GetUpdatedAccount existing patch).FirstName
      = (if patch.FirstName = "" then existing.FirstName else patch.FirstName) ∧
    (GetUpdatedAccount existing patch).LastName
      = (if patch.LastName = "" then existing.LastName else patch.LastName) ∧
    (GetUpdatedAccount existing patch).Balance = patch.Balance ∧
    GetUpdatedAccount ⟨id, "A", "B", u, 100, c⟩ ⟨id2, "", "C", u2, 100, c2⟩
      = ⟨id, "A", "C", u, 100, c⟩ := by
  refine ⟨?_, ?_, ?_, ?_⟩
  · unfold GetUpdatedAccount
    by_cases h1 : patch.FirstName = "" <;> by_cases h2 : existing.FirstName = patch.FirstName <;>
      by_cases h3 : patch.LastName = "" <;> by_cases h4 : existing.LastName = patch.LastName <;>
      cases h5 : F64.ne existing.Balance patch.Balance <;> simp [h1, h2, h3, h4, h5]
  · unfold GetUpdatedAccount
    by_cases h1 : patch.FirstName = "" <;> by_cases h2 : existing.FirstName = patch.FirstName <;>
      by_cases h3 : patch.LastName = "" <;> by_cases h4 : existing.LastName = patch.LastName <;>
      cases h5 : F64.ne existing.Balance patch.Balance <;> simp [h1, h2, h3, h4, h5]
  · unfold GetUpdatedAccount
    by_cases h1 : patch.FirstName = "" <;> by_cases h2 : existing.FirstName = patch.FirstName <;>
      by_cases h3 : patch.LastName = "" <;> by_cases h4 : existing.LastName = patch.LastName <;>
      cases h5 : F64.ne existing.Balance patch.Balance <;>
      simp [h1, h2, h3, h4, h5] <;> exact ne_eq_false h5
  · unfold GetUpdatedAccount
    cases h5 : F64.ne (100 : F64) (100 : F64) <;> simp [h5]

/-! ## Update, delete and lookup -/

theorem updateAccount_carried_out (s : PostGresStore) (acc : Account)
    (h : s.db.failing = false) :
    s.UpdateAccount acc
      = (none, ⟨(s.db.next.run
          (.updateAccount acc.FirstName acc.LastName acc.Balance acc.ID)).2⟩) := by
  simp [PostGresStore.UpdateAccount, exec_carried_out _ _ h]

theorem updateAccount_failed (s : PostGresStore) (acc : Account) (h : s.db.failing = true) :
    s.UpdateAccount acc = (some .storage, ⟨s.db.next⟩) := by
  simp [PostGresStore.UpdateAccount, exec_failed _ _ h]

/-- The rows left by one carried-out `UpdateAccount`. -/
theorem rows_after_update (db : DB) (fn ln : String) (bal : F64) (id : Int) :
    (PostGresStore.mk (db.next.run (.updateAccount fn ln bal id)).2).db.rows
      = db.rows.map (fun r =>
          if r.ID == id then { r with FirstName := fn, LastName := ln, Balance := bal }
          else r) := rfl

theorem deleteAccount_carried_out (s : PostGresStore) (id : Int) (h : s.db.failing = false) :
    s.DeleteAccount id = (none, ⟨(s.db.next.run (.deleteAccount id)).2⟩) := by
  simp [PostGresStore.DeleteAccount, exec_carried_out _ _ h]

/-- The rows left by one carried-out `DeleteAccount`. -/
theorem rows_after_delete (db : DB) (id : Int) :
    (PostGresStore.mk (db.next.run (.deleteAccount id)).2).db.rows
      = db.rows.filter (fun r => !(r.ID == id)) := rfl

/-- Claim C5, as the code has it: `UpdateAccount` returns an error exactly when
its database call fails.  When the call is carried out it returns no error
whether or not a row has the key of the account: with no such row the table is
left as it was, and every row with that key has its first name, last name and
balance overwritten with those of the account, the other rows being kept. -/
theorem updateAccount_ignores_missing_row (s : PostGresStore) (acc : Account) :
    ((s.UpdateAccount acc).1 = none ↔ s.db.failing = false) ∧
    (s.db.failing = false →
      (selectByID s.db.rows acc.ID = none → (s.UpdateAccount acc).2.db.rows = s.db.rows) ∧
      (∀ (i : Nat) (r : Account), s.db.rows[i]? = some r → r.ID = acc.ID →
        (s.UpdateAccount acc).2.db.rows[i]?
          = some { r with FirstName := acc.FirstName, LastName := acc.LastName,
                          Balance := acc.Balance }) ∧
      othersKept acc.ID s.db.rows (s.UpdateAccount acc).2.db.rows) := by
  refine ⟨?_, ?_⟩
  · rcases failing_cases s.db with hf | hf
    · simp [updateAccount_carried_out s acc hf, hf]
    · simp [updateAccount_failed s acc hf, hf]
  · intro hf
    rw [updateAccount_carried_out s acc hf, rows_after_update]
    refine ⟨?_, ?_, ?_⟩
    · intro hnone
      rw [selectByID_none_iff] at hnone
      conv_rhs => rw [← List.map_id s.db.rows]
      apply List.map_congr_left
      intro r hr
      simp [hnone r hr]
    · intro i r hr hk
      simp [List.getElem?_map, hr, hk]
    · apply othersKept_map
      intro r hne
      simp [hne]

/-- An update without a row at work: an update under the key 2 on a table that
holds only the key 1. -/
theorem updateAccount_ignores_missing_row_witness :
    ((storeOf [alice 30] []).UpdateAccount (bob 5)).1 = none ∧
    ((storeOf [alice 30] []).UpdateAccount (bob 5)).2.db.rows = [alice 30] := by
  have h := updateAccount_ignores_missing_row (storeOf [alice 30] []) (bob 5)
  exact ⟨h.1.2 (by decide), (h.2 (by decide)).1 (by decide)⟩

/-- Claim C5 as written fails: no row has the key 2, the database call is
carried out, and `UpdateAccount` returns no error. -/
theorem updateAccount_missing_row_no_error :
    selectByID (storeOf [alice 30] []).db.rows (bob 5).ID = none ∧
    (storeOf [alice 30] []).UpdateAccount (bob 5) = (none, storeOf [alice 30] []) := by
  decide!

/-- Claim C6: when its database call is carried out, `DeleteAccount id` returns
no error whether or not a row has the key `id`; afterwards no row has that key
and the rows under other keys are the former ones, in their order.  A second
`DeleteAccount id` whose call is carried out returns no error and leaves the
table and the `serial` counter as the first call left them (the whole store,
when no call is set to fail). -/
theorem deleteAccount_idempotent (s : PostGresStore) (id : Int)
    (h1 : s.db.failing = false) (h2 : s.db.next.failing = false) :
    ∃ s1 s2, s.DeleteAccount id = (none, s1) ∧
      selectByID s1.db.rows id = none ∧
      (∀ r, r ∈ s1.db.rows ↔ r ∈ s.db.rows ∧ r.ID ≠ id) ∧
      s1.db.rows = s.db.rows.filter (fun r => decide (r.ID ≠ id)) ∧
      (∀ j, j ≠ id → selectByID s1.db.rows j = selectByID s.db.rows j) ∧
      s1.DeleteAccount id = (none, s2) ∧
      s2.db.rows = s1.db.rows ∧ s2.db.nextID = s1.db.nextID ∧
      (s.db.faults = [] → s2 = s1) := by
  have hmem : ∀ r, r ∈ s.db.rows.filter (fun r => !(r.ID == id)) ↔ r ∈ s.db.rows ∧ r.ID ≠ id := by
    intro r
    simp [List.mem_filter]
  have hrows2 : (s.db.rows.filter (fun r => !(r.ID == id))).filter (fun r => !(r.ID == id))
      = s.db.rows.filter (fun r => !(r.ID == id)) := by
    rw [List.filter_filter]
    congr 1
    funext r
    simp
  refine ⟨_, _, deleteAccount_carried_out s id h1, ?_, ?_, ?_, ?_,
    deleteAccount_carried_out ⟨(s.db.next.run (.deleteAccount id)).2⟩ id h2, ?_, rfl, ?_⟩
  · rw [rows_after_delete, selectByID_none_iff]
    intro r hr
    exact ((hmem r).1 hr).2
  · intro r
    rw [rows_after_delete]
    exact hmem r
  · rw [rows_after_delete]
    congr 1
    funext r
    by_cases h : r.ID = id <;> simp [h]
  · intro j hj
    rw [rows_after_delete]
    unfold selectByID
    rw [List.find?_filter]
    congr 1
    funext r
    by_cases h : r.ID = j
    · simp [h, hj]
    · simp [h]
  · exact hrows2
  · intro hnil
    cases s with
    | mk db =>
      cases db with
      | mk rows nextID faults =>
        simp only at hnil
        subst hnil
        simp only [DB.next, DB.run, List.tail_nil, PostGresStore.mk.injEq, DB.mk.injEq, and_true,
          true_and]
        exact hrows2

/-- A repeated delete at work: the key 1 is deleted twice from a table holding
the keys 1 and 2. -/
theorem deleteAccount_idempotent_witness :
    ∃ s1 s2, (storeOf [alice 30, bob 0] []).DeleteAccount 1 = (none, s1) ∧
      s1.db.rows = [bob 0] ∧ s1.DeleteAccount 1 = (none, s2) ∧ s2 = s1 := by
  obtain ⟨s1, s2, hd1, -, -, hrows, -, hd2, -, -, heq⟩ :=
    deleteAccount_idempotent (storeOf [alice 30, bob 0] []) 1 (by decide) (by decide)
  exact ⟨s1, s2, hd1, hrows.trans (by decide!), hd2, heq (by decide)⟩

/-- Claim C7: when no row has the key `id`, `GetAccountByID id` returns an
error and no account, whatever the outcome of the database call, and the error
is the does-not-exist error of that key when the call is carried out; when a
row has the key and the call is carried out, it returns the stored record,
whole, and no error.  The table is left as it was. -/
theorem getAccountByID_not_found (s : PostGresStore) (id : Int) :
    ((∀ r ∈ s.db.rows, r.ID ≠ id) → ∃ e, (s.GetAccountByID id).1 = .error e) ∧
    ((∀ r ∈ s.db.rows, r.ID ≠ id) → s.db.failing = false →
      (s.GetAccountByID id).1 = .error (.notExist id)) ∧
    ((∃ r ∈ s.db.rows, r.ID = id) → s.db.failing = false →
      ∃ r, (s.GetAccountByID id).1 = .ok r ∧ r ∈ s.db.rows ∧ r.ID = id ∧
        selectByID s.db.rows id = some r) ∧
    (s.GetAccountByID id).2.db.rows = s.db.rows := by
  refine ⟨?_, ?_, ?_, ?_⟩
  · intro habs
    have hnone := (selectByID_none_iff s.db.rows id).2 habs
    rcases failing_cases s.db with hf | hf
    · exact ⟨.notExist id, by rw [getAccountByID_carried_out s id hf, hnone]⟩
    · exact ⟨.storage, by rw [getAccountByID_failed s id hf]⟩
  · intro habs hf
    have hnone := (selectByID_none_iff s.db.rows id).2 habs
    rw [getAccountByID_carried_out s id hf, hnone]
  · rintro ⟨r0, hr0, hk0⟩ hf
    cases hsel : selectByID s.db.rows id with
    | none => exact absurd hk0 ((selectByID_none_iff s.db.rows id).1 hsel r0 hr0)
    | some r =>
      exact ⟨r, by rw [getAccountByID_carried_out s id hf, hsel],
        selectByID_some_mem hsel, selectByID_some_key hsel, rfl⟩
  · rcases failing_cases s.db with hf | hf
    · rw [getAccountByID_carried_out s id hf]
      cases selectByID s.db.rows id <;> rfl
    · rw [getAccountByID_failed s id hf]
      rfl

/-- A lookup at work: the key 2 is absent from a table holding only the key 1,
and the key 1 is found. -/
theorem getAccountByID_not_found_witness :
    ((storeOf [alice 30] []).GetAccountByID 2).1 = .error (.notExist 2) ∧
    ∃ r, ((storeOf [alice 30] []).GetAccountByID 1).1 = .ok r ∧ r.ID = 1 := by
  have h2 := getAccountByID_not_found (storeOf [alice 30] []) 2
  have h1 := getAccountByID_not_found (storeOf [alice 30] []) 1
  obtain ⟨r, hr, -, hk, -⟩ := h1.2.2.1 (by decide) (by decide)
  exact ⟨h2.2.1 (by decide) (by decide), r, hr, hk⟩

/-- Claim C9: `GetUpdatedAccount existing patch` has the `ID`, the `UUID` and
the `CreatedAt` of `existing`, whatever the patch carries in these fields; and
`UpdateAccount account`, whether its database call is carried out or fails,
leaves `ID`, `UUID` and `CreatedAt` of every row as they were and keeps every
row whose key is not `account.ID`. -/
theorem identity_immutable_under_update (existing patch : Account) (s : PostGresStore)
    (acc : Account) :
    (GetUpdatedAccount existing patch).ID = existing.ID ∧
    (GetUpdatedAccount existing patch).UUID = existing.UUID ∧
    (GetUpdatedAccount existing patch).CreatedAt = existing.CreatedAt ∧
    (s.UpdateAccount acc).2.db.rows.map Account.identity = s.db.rows.map Account.identity ∧
    othersKept acc.ID s.db.rows (s.UpdateAccount acc).2.db.rows := by
  have hG : (GetUpdatedAccount existing patch).identity = existing.identity := by
    unfold GetUpdatedAccount Account.identity
    by_cases h1 : patch.FirstName = "" <;> by_cases h2 : existing.FirstName = patch.FirstName <;>
      by_cases h3 : patch.LastName = "" <;> by_cases h4 : existing.LastName = patch.LastName <;>
      cases h5 : F64.ne existing.Balance patch.Balance <;> simp [h1, h2, h3, h4, h5]
  simp only [Account.identity, Prod.mk.injEq] at hG
  refine ⟨hG.1, hG.2.1, hG.2.2, ?_, ?_⟩
  · rcases failing_cases s.db with hf | hf
    · rw [updateAccount_carried_out s acc hf, rows_after_update, List.map_map]
      apply List.map_congr_left
      intro r _
      by_cases h : r.ID = acc.ID <;> simp [Account.identity, h]
    · rw [updateAccount_failed s acc hf]
      rfl
  · rcases failing_cases s.db with hf | hf
    · rw [updateAccount_carried_out s acc hf, rows_after_update]
      apply othersKept_map
      intro r hne
      simp [hne]
    · rw [updateAccount_failed s acc hf]
      exact ⟨rfl, fun i r hr _ => hr⟩

/-! ## Interleaved debits -/

theorem replicate_append_cons_getElem? {α : Type} (n : Nat) (x y : α) (l : List α) :
    (List.replicate n x ++ y :: l)[n]? = some y := by
  induction n with
  | zero => simp
  | succ n ih => simpa [List.replicate_succ] using ih

theorem replicate_append_cons_set {α : Type} (n : Nat) (x y z : α) (l : List α) :
    (List.replicate n x ++ y :: l).set n z = List.replicate n x ++ z :: l := by
  induction n with
  | zero => simp
  | succ n ih => simp [List.replicate_succ, ih]

theorem serialSchedule_count (n i : Nat) :
    (serialSchedule n).count i = if i < n then 2 else 0 := by
  induction n with
  | zero => simp [serialSchedule]
  | succ n ih =>
    rw [serialSchedule, List.count_append, ih]
    by_cases h1 : i < n
    · have h2 : i < n + 1 := by omega
      have h3 : ¬ n = i := by omega
      simp [h1, h2, List.count_cons, h3]
    · by_cases h4 : n = i
      · subst h4
        simp [List.count_cons]
      · have h2 : ¬ i < n + 1 := by omega
        simp [h1, h2, List.count_cons, h4]

theorem serialSchedule_mem (n i : Nat) (h : i ∈ serialSchedule n) : i < n := by
  induction n with
  | zero => simp [serialSchedule] at h
  | succ n ih =>
    rw [serialSchedule, List.mem_append] at h
    rcases h with h | h
    · exact Nat.lt_succ_of_lt (ih h)
    · simp at h
      omega

theorem failing_of_no_faults (db : DB) (h : db.faults = []) : db.failing = false := by
  simp [DB.failing, h]

/-- The handler and the two steps agree: the store left by `handleDebit` is the
store left by the read step followed by the write step of one request. -/
theorem handleDebit_as_two_steps (s : PostGresStore) (id : Int) (a : F64)
    (written : Option Err) :
    (handleDebit s id (.value ⟨a⟩) written).2
      = (stepRequest id a (stepRequest id a s .waiting).2 (stepRequest id a s .waiting).1).2 := by
  unfold handleDebit
  rcases hget : s.GetAccountByID id with ⟨e | account, s1⟩
  · simp [stepRequest, hget]
  · simp only [stepRequest, hget]
    rcases hdeb : s1.Debit account a with ⟨_ | e, s2⟩ <;> simp

/-- One request served alone on a store with no failure to come: its read and
its write put the `float64` sum of the stored balance and the amount in its
place. -/
theorem serve_one (id : Int) (a : F64) (s : PostGresStore) (row : Account)
    (hrow : selectByID s.db.rows id = some row) (hw : s.db.faults = [])
    (n : Nat) (l : List Progress) :
    ∃ s2 : PostGresStore,
      [n, n].foldl (stepSchedule id a) (s, List.replicate n .finished ++ .waiting :: l)
        = (s2, List.replicate n .finished ++ .finished :: l) ∧
      s2.db.faults = [] ∧
      selectByID s2.db.rows id = some { row with Balance := row.Balance + a } := by
  have hk : row.ID = id := selectByID_some_key hrow
  have hf1 : s.db.failing = false := failing_of_no_faults _ hw
  have hw1 : s.db.next.faults = [] := by simp [DB.next, hw]
  have hf2 : s.db.next.failing = false := failing_of_no_faults _ hw1
  have hget : s.GetAccountByID id = (.ok row, ⟨s.db.next⟩) := by
    rw [getAccountByID_carried_out s id hf1, hrow]
  refine ⟨⟨(s.db.next.next.run (.updateBalance (row.Balance + a) row.ID)).2⟩, ?_, ?_, ?_⟩
  · simp only [List.foldl_cons, List.foldl_nil, stepSchedule, replicate_append_cons_getElem?,
      stepRequest, hget, replicate_append_cons_set,
      debit_carried_out ⟨s.db.next⟩ row a hf2]
  · simp [DB.run, DB.next, hw]
  · rw [selectByID_write, hk]
    simp [DB.next, hrow, hk]

theorem run_serial (id : Int) (a : F64) (row : Account) (n : Nat) :
    ∀ (k : Nat) (s : PostGresStore), selectByID s.db.rows id = some row → s.db.faults = [] →
    ∃ s2 : PostGresStore,
      (serialSchedule n).foldl (stepSchedule id a) (s, List.replicate (n + k) .waiting)
        = (s2, List.replicate n .finished ++ List.replicate k .waiting) ∧
      s2.db.faults = [] ∧
      selectByID s2.db.rows id
        = some { row with Balance := (fun b : F64 => b + a)^[n] row.Balance } := by
  induction n with
  | zero =>
    intro k s hrow hw
    exact ⟨s, by simp [serialSchedule], hw, by simpa using hrow⟩
  | succ n ih =>
    intro k s hrow hw
    obtain ⟨s1, hrun, hw1, hsel1⟩ := ih (k + 1) s hrow hw
    obtain ⟨s2, hstep, hw2, hsel2⟩ :=
      serve_one id a s1 _ hsel1 hw1 n (List.replicate k .waiting)
    refine ⟨s2, ?_, hw2, ?_⟩
    · have harith : n + 1 + k = n + (k + 1) := by omega
      rw [serialSchedule, List.foldl_append, harith, hrun, List.replicate_succ, hstep,
        List.replicate_succ']
      simp
    · rw [hsel2, Function.iterate_succ_apply']

/-- Repeated `float64` additions of one amount add up when every partial sum
is a value of `float64`. -/
theorem iterate_add_of_representable (kb ka : Int) (n : Nat)
    (hrep : ∀ i : Nat, 1 ≤ i → i ≤ n → F64.representable (kb + i * ka)) :
    (fun b : F64 => b + F64.fin ka)^[n] (F64.fin kb) = F64.fin (kb + n * ka) := by
  induction n with
  | zero => simp
  | succ n ih =>
    have hprev := ih (fun i h1 h2 => hrep i h1 (Nat.le_succ_of_le h2))
    have hlast := hrep (n + 1) (Nat.succ_le_succ (Nat.zero_le n)) (Nat.le_refl _)
    have harith : kb + (n : Int) * ka + ka = kb + ((n + 1 : Nat) : Int) * ka := by
      push_cast
      ring
    rw [Function.iterate_succ_apply', hprev]
    show F64.fin (kb + n * ka) + F64.fin ka = _
    rw [add_of_representable _ _ (harith ▸ hlast), harith]

/-- Claim C8, as the code has it: when `n` debit requests of the amount `a`
against one account are served one after another, each read directly followed
by its write, on a store with no failure to come, every request finishes and
the stored balance is the initial balance `b` after `n` `float64` additions of
`a`.  Whenever every partial sum `b + i * a`, for `i` from 1 to `n`, is a value
of `float64`, so that nothing is rounded, the stored balance is `b + n * a`. -/
theorem serial_debits_add_up (s : PostGresStore) (id : Int) (row : Account) (a : F64) (n : Nat)
    (hrow : selectByID s.db.rows id = some row) (hw : s.db.faults = []) :
    isInterleaving n (serialSchedule n) ∧
    (runSchedule id a s n (serialSchedule n)).2 = List.replicate n .finished ∧
    balanceOf (runSchedule id a s n (serialSchedule n)).1 id
      = some ((fun b : F64 => b + a)^[n] row.Balance) ∧
    ∀ kb ka : Int, row.Balance = .fin kb → a = .fin ka →
      (∀ i : Nat, 1 ≤ i → i ≤ n → F64.representable (kb + i * ka)) →
      balanceOf (runSchedule id a s n (serialSchedule n)).1 id = some (.fin (kb + n * ka)) := by
  obtain ⟨s2, hrun, -, hsel⟩ := run_serial id a row n 0 s hrow hw
  rw [Nat.add_zero] at hrun
  have hbal : balanceOf (runSchedule id a s n (serialSchedule n)).1 id
      = some ((fun b : F64 => b + a)^[n] row.Balance) := by
    unfold runSchedule
    rw [hrun]
    simp [balanceOf, hsel]
  refine ⟨⟨serialSchedule_mem n, ?_⟩, ?_, hbal, ?_⟩
  · intro i hi
    rw [serialSchedule_count, if_pos hi]
  · unfold runSchedule
    rw [hrun]
    simp
  · intro kb ka hkb hka hrep
    rw [hbal, hkb, hka, iterate_add_of_representable kb ka n hrep]

/-- Serial debits at work: three debits of 50 on Alice (0). -/
theorem serial_debits_add_up_witness :
    balanceOf (runSchedule 1 50 (storeOf [alice 0] []) 3 (serialSchedule 3)).1 1
      = some 150 := by
  have h := (serial_debits_add_up (storeOf [alice 0] []) 1 (alice 0) 50 3 (by decide!)
    (by decide)).2.2.2 (0 * F64.scale) (50 * F64.scale) (by decide!) (by decide!)
    (by
      intro i _ h3
      have harith : (0 * (F64.scale : Int) + (i : Int) * (50 * F64.scale))
          = ((i : Int) * 50) * F64.scale := by ring
      rw [harith]
      apply representable_whole
      have : ((i : Int) * 50).natAbs = i * 50 := by
        rw [Int.natAbs_mul]
        rfl
      rw [this]
      have hb : i * 50 ≤ 3 * 50 := Nat.mul_le_mul_right 50 h3
      exact Nat.lt_of_le_of_lt hb (by decide))
  exact h.trans (by decide!)

/-- Claim C8 as written fails in two ways.  Two debits of 50 against a balance
of 0, with both reads ahead of both writes, both finish and leave 50, not
the 100 that is 0 + 2 * 50.  And a single debit of 0.0001 against a balance of 5000000000000,
its read directly followed by its write, finishes and leaves the balance as it
was, the `float64` sum being rounded back to it. -/
theorem lost_update :
    (isInterleaving 2 [0, 1, 0, 1] ∧
      (runSchedule 1 50 (storeOf [alice 0] []) 2 [0, 1, 0, 1]).2 = [.finished, .finished] ∧
      balanceOf (runSchedule 1 50 (storeOf [alice 0] []) 2 [0, 1, 0, 1]).1 1 = some 50 ∧
      balanceOf (runSchedule 1 50 (storeOf [alice 0] []) 2 [0, 1, 0, 1]).1 1 ≠ some 100) ∧
    (isInterleaving 1 [0, 0] ∧
      (runSchedule 2 smallAmount (storeOf [bob largeBalance] []) 1 [0, 0]).2 = [.finished] ∧
      balanceOf (runSchedule 2 smallAmount (storeOf [bob largeBalance] []) 1 [0, 0]).1 2
        = some largeBalance ∧
      largeBalance.steps ≠ F64.exactAdd largeBalance smallAmount) := by
  decide!

end GoBank
